import Mathlib

/-!
Shallow embedding of openat-ext (src/lib.rs): the copy engine
(FileExt::copy_to and fallback_file_copy), the atomic FileWriter protocol
(new_file_writer / complete_with / abandon / write_file_with), the
optional wrappers and ensure_dir_all.  File contents are lists of bytes
(List Nat); external collaborators (the copy_file_range syscall, the
openat Dir operations, the rand character stream, the drop_bomb guard)
are modelled at their interfaces, with their nondeterminism supplied by
explicit oracle arguments.
-/

namespace OpenatExt

/-- POSIX errno values distinguished by copy_to, plus two stand-ins for
"any other" errno. -/
inductive Errno
  | ENOSYS
  | EPERM
  | EINVAL
  | EXDEV
  | EIO
  | ENOSPC
  deriving DecidableEq

/-- One outcome of the external copy_file_range syscall, as reported by nix:
either a byte count, or an error which may (some) or may not (none) carry an
errno (nix::Error::as_errno). -/
inductive CfrResult
  | ok (n : Nat)
  | err (e : Option Errno)
  deriving DecidableEq

/-- An io::Error as copy_to builds it: io::Error::from_raw_os_error on an
errno, or io::Error::new(ErrorKind::Other, err) when the nix error carries
no errno. -/
inductive CopyIOError
  | raw (e : Errno)
  | otherKind
  deriving DecidableEq

/-- The result of one copy_to call: a normal Ok(u64), an Err, or the
assert_eq!(written, 0) assertion firing. -/
inductive CopyOutcome
  | ok (n : Nat)
  | err (e : CopyIOError)
  | panicked
  deriving DecidableEq

/-- Positioned write (write_all_at): overwrite dest starting at offset off
with buf, zero-filling a hole if off is past the end, keeping any suffix of
dest beyond the written range. -/
def write_all_at (dest : List Nat) (buf : List Nat) (off : Nat) : List Nat :=
  (dest ++ List.replicate (off - dest.length) 0).take off ++ buf
    ++ dest.drop (off + buf.length)

/-- The loop of fallback_file_copy: positioned read of up to 8192 bytes at
offset off (read_at), stop with Ok(off) on a zero-length read, else
write_all_at the chunk at the same offset and advance.  The fuel argument is
a termination artifact only: fallback_file_copy passes src.length + 1,
which `fallback_file_copy_spec` shows is always enough. -/
def fallback_go (src : List Nat) : Nat → List Nat → Nat → Option (List Nat × Nat)
  | 0, _, _ => none
  | fuel + 1, dest, off =>
    let buf := (src.drop off).take 8192
    if buf.length = 0 then some (dest, off)
    else fallback_go src fuel (write_all_at dest buf off) (off + buf.length)

/-- fallback_file_copy(src, dest): returns the final dest contents and the
returned byte count (the final offset). -/
def fallback_file_copy (src dest : List Nat) : Option (List Nat × Nat) :=
  fallback_go src (src.length + 1) dest 0

/-- The usize::MAX cap of the fast path (64-bit usize as u64). -/
def usizeMax : Nat := 2 ^ 64 - 1

/-- The loop of FileExt::copy_to (linux cfg).  `flagInit` is the value
loaded once from HAS_COPY_FILE_RANGE before the loop; `flag` the global's
current value; `written`, `srcPos`, `destPos` the progress counter and the
two file positions (copy_file_range is called with None offsets, so it
advances both positions); `oracle` supplies one copy_file_range outcome per
actual syscall, an Ok n being clamped to the requested length and to the
bytes remaining in src (the kernel never copies more).  Returns none when
the oracle runs out, else the CopyOutcome together with the final dest
contents and the final global flag. -/
def copy_to_go (src : List Nat) (flagInit : Bool) (oracle : List CfrResult)
    (written srcPos destPos : Nat) (dest : List Nat) (flag : Bool) :
    Option (CopyOutcome × List Nat × Bool) :=
  if written < src.length then
    if flagInit then
      match oracle with
      | [] => none
      | CfrResult.ok n :: rest =>
        let bytes_to_copy := min (src.length - written) usizeMax
        let ret := min n (min bytes_to_copy (src.length - srcPos))
        copy_to_go src flagInit rest (written + ret) (srcPos + ret) (destPos + ret)
          (write_all_at dest ((src.drop srcPos).take ret) destPos) flag
      | CfrResult.err e :: _ =>
        let flag2 := if e = some Errno.ENOSYS ∨ e = some Errno.EPERM then false else flag
        match e with
        | some eno =>
          if eno = Errno.ENOSYS ∨ eno = Errno.EXDEV ∨ eno = Errno.EINVAL
              ∨ eno = Errno.EPERM then
            if written = 0 then
              match fallback_file_copy src dest with
              | some r => some (CopyOutcome.ok r.2, r.1, flag2)
              | none => none
            else some (CopyOutcome.panicked, dest, flag2)
          else some (CopyOutcome.err (CopyIOError.raw eno), dest, flag2)
        | none => some (CopyOutcome.err CopyIOError.otherKind, dest, flag2)
    else
      if written = 0 then
        match fallback_file_copy src dest with
        | some r => some (CopyOutcome.ok r.2, r.1, flag)
        | none => none
      else some (CopyOutcome.panicked, dest, flag)
  else some (CopyOutcome.ok written, dest, flag)

/-- FileExt::copy_to on two freshly opened handles (both positions 0): len
is taken from src's metadata, the flag is loaded once, and the loop runs
from written = 0. -/
def copy_to (src dest : List Nat) (oracle : List CfrResult) (flag : Bool) :
    Option (CopyOutcome × List Nat × Bool) :=
  copy_to_go src flag oracle 0 0 0 dest flag

/-- The compile-time initializer of HAS_COPY_FILE_RANGE:
AtomicBool::new(true). -/
def HAS_COPY_FILE_RANGE_init : Bool := true

/-- One copy_to invocation of a process-wide sequence. -/
structure CopyCall where
  src : List Nat
  dest : List Nat
  oracle : List CfrResult

/-- The value of HAS_COPY_FILE_RANGE after a sequence of copy_to calls
starting from `flag` (a call whose oracle runs out has stored nothing, so
the flag is unchanged there). -/
def copy_to_seq (calls : List CopyCall) (flag : Bool) : Bool :=
  calls.foldl
    (fun fl c =>
      match copy_to c.src c.dest c.oracle fl with
      | some r => r.2.2
      | none => fl)
    flag

theorem write_all_at_of_le (dest buf : List Nat) (off : Nat) (h : off ≤ dest.length) :
    write_all_at dest buf off = dest.take off ++ buf ++ dest.drop (off + buf.length) := by
  unfold write_all_at
  rw [Nat.sub_eq_zero_of_le h]
  simp

theorem take_len_take (l : List Nat) (c : Nat) :
    l.take ((l.take c).length) = l.take c := by
  rw [List.length_take, ← List.take_take, List.take_length]

/-- Writing the slice of src at [off, off + n) over a destination that
already agrees with src below off extends the agreement to off + n. -/
theorem write_slice_step (src dest0 : List Nat) (off c n : Nat)
    (hoff : off ≤ src.length) (hn : n = ((src.drop off).take c).length) :
    write_all_at (src.take off ++ dest0.drop off) ((src.drop off).take c) off
      = src.take (off + n) ++ dest0.drop (off + n) := by
  have hA : (src.take off).length = off := by rw [List.length_take]; omega
  have h1 : off ≤ (src.take off ++ dest0.drop off).length := by
    rw [List.length_append, hA]; omega
  rw [write_all_at_of_le _ _ _ h1, ← hn]
  have h2 : (src.take off ++ dest0.drop off).take off = src.take off :=
    List.take_left' hA
  have h3 : (src.take off ++ dest0.drop off).drop (off + n) = dest0.drop (off + n) := by
    have hd := @List.drop_append Nat (src.take off) (dest0.drop off) n
    rw [hA] at hd
    rw [hd, List.drop_drop]
  have h4 : (src.drop off).take c = (src.drop off).take n := by
    rw [hn, take_len_take]
  rw [h2, h3, h4, List.take_add]

theorem fallback_go_spec (src dest0 : List Nat) :
    ∀ (fuel off : Nat), src.length - off < fuel → off ≤ src.length →
      fallback_go src fuel (src.take off ++ dest0.drop off) off
        = some (src ++ dest0.drop src.length, src.length) := by
  intro fuel
  induction fuel with
  | zero => intro off h1 h2; omega
  | succ fuel ih =>
    intro off h1 h2
    simp only [fallback_go]
    by_cases hb : ((src.drop off).take 8192).length = 0
    · rw [if_pos hb]
      have h3 : src.length ≤ off := by
        rw [List.length_take, List.length_drop] at hb
        omega
      have hoff : off = src.length := by omega
      subst hoff
      rw [List.take_length]
    · rw [if_neg hb]
      rw [write_slice_step src dest0 off 8192 (((src.drop off).take 8192).length) h2 rfl]
      have hn1 : 0 < ((src.drop off).take 8192).length := Nat.pos_of_ne_zero hb
      have hn2 : ((src.drop off).take 8192).length ≤ src.length - off := by
        rw [List.length_take, List.length_drop]
        omega
      exact ih (off + ((src.drop off).take 8192).length) (by omega) (by omega)

/-- fallback_file_copy copies src over dest from offset 0: the result agrees
with src and keeps only dest's suffix past src's length, and the returned
count is src's length. -/
theorem fallback_file_copy_spec (src dest0 : List Nat) :
    fallback_file_copy src dest0 = some (src ++ dest0.drop src.length, src.length) := by
  have h := fallback_go_spec src dest0 (src.length + 1) 0 (by omega) (by omega)
  simpa [fallback_file_copy] using h

/-- Once written has reached src's length the loop returns at once, for any
oracle and any local flag value. -/
theorem copy_go_done (src : List Nat) (fi : Bool) (oracle : List CfrResult)
    (w sp dp : Nat) (dest : List Nat) (flag : Bool) (hge : ¬ w < src.length) :
    copy_to_go src fi oracle w sp dp dest flag = some (CopyOutcome.ok w, dest, flag) := by
  rw [copy_to_go.eq_def, if_neg hge]

/-- Unfolding of one successful copy_file_range iteration of the loop. -/
theorem copy_go_ok_step (src : List Nat) (m : Nat) (rest : List CfrResult)
    (w sp dp : Nat) (dest : List Nat) (flag : Bool) (hlt : w < src.length) :
    copy_to_go src true (CfrResult.ok m :: rest) w sp dp dest flag
      = copy_to_go src true rest
          (w + min m (min (min (src.length - w) usizeMax) (src.length - sp)))
          (sp + min m (min (min (src.length - w) usizeMax) (src.length - sp)))
          (dp + min m (min (min (src.length - w) usizeMax) (src.length - sp)))
          (write_all_at dest
            ((src.drop sp).take
              (min m (min (min (src.length - w) usizeMax) (src.length - sp)))) dp)
          flag := by
  rw [copy_to_go.eq_def, if_pos hlt]
  rfl

/-- Invariant of the fast-path loop: with both positions equal to written
and the destination agreeing with src below written, an Ok outcome of the
whole loop reports src.length bytes and a destination equal to src (plus
dest's old suffix past src's length). -/
theorem copy_go_ok (src dest0 : List Nat) (flag : Bool) :
    ∀ (oracle : List CfrResult) (w : Nat), w ≤ src.length →
      ∀ (out : CopyOutcome) (d : List Nat) (f : Bool),
        copy_to_go src true oracle w w w (src.take w ++ dest0.drop w) flag
            = some (out, d, f) →
        ∀ n, out = CopyOutcome.ok n →
          n = src.length ∧ d = src ++ dest0.drop src.length := by
  intro oracle
  induction oracle with
  | nil =>
    intro w hw out d f h n hn
    by_cases hlt : w < src.length
    · simp [copy_to_go, hlt] at h
    · have hw' : w = src.length := by omega
      subst hw'
      rw [copy_go_done src true [] _ _ _ _ flag hlt] at h
      simp at h
      obtain ⟨h1, h2, _⟩ := h
      rw [← h1] at hn
      simp at hn
      exact ⟨hn.symm, h2.symm⟩
  | cons head rest ih =>
    intro w hw out d f h n hn
    by_cases hlt : w < src.length
    · cases head with
      | ok m =>
        rw [copy_go_ok_step src m rest w w w (src.take w ++ dest0.drop w) flag hlt] at h
        rw [write_slice_step src dest0 w
            (min m (min (min (src.length - w) usizeMax) (src.length - w)))
            (min m (min (min (src.length - w) usizeMax) (src.length - w)))
            (by omega)
            (by rw [List.length_take, List.length_drop]; omega)] at h
        exact ih (w + min m (min (min (src.length - w) usizeMax) (src.length - w)))
          (by omega) out d f h n hn
      | err e =>
        cases e with
        | none =>
          simp [copy_to_go, hlt] at h
          obtain ⟨h1, _, _⟩ := h
          rw [← h1] at hn
          simp at hn
        | some eno =>
          by_cases hcap : eno = Errno.ENOSYS ∨ eno = Errno.EXDEV ∨ eno = Errno.EINVAL
              ∨ eno = Errno.EPERM
          · by_cases hw0 : w = 0
            · subst hw0
              simp [copy_to_go, hlt, hcap, fallback_file_copy_spec src dest0] at h
              obtain ⟨h1, h2, _⟩ := h
              rw [← h1] at hn
              simp at hn
              exact ⟨hn.symm, h2.symm⟩
            · simp [copy_to_go, hlt, hcap, hw0] at h
              obtain ⟨h1, _, _⟩ := h
              rw [← h1] at hn
              simp at hn
          · simp [copy_to_go, hlt, hcap] at h
            obtain ⟨h1, _, _⟩ := h
            rw [← h1] at hn
            simp at hn
    · have hw' : w = src.length := by omega
      subst hw'
      rw [copy_go_done src true (head :: rest) _ _ _ _ flag hlt] at h
      simp at h
      obtain ⟨h1, h2, _⟩ := h
      rw [← h1] at hn
      simp at hn
      exact ⟨hn.symm, h2.symm⟩

/-- C1: for every source file content, a copy_to (on fresh handles, into an
initially empty destination) that returns Ok reports exactly src.length
bytes copied and leaves the destination holding exactly src's bytes;
fallback_file_copy satisfies the same postcondition. -/
theorem copy_to_round_trip (src : List Nat) (oracle : List CfrResult) (flag : Bool)
    (n : Nat) (d : List Nat) (f : Bool)
    (h : copy_to src [] oracle flag = some (CopyOutcome.ok n, d, f)) :
    n = src.length ∧ d = src
    ∧ fallback_file_copy src [] = some (src, src.length) := by
  have hfb : fallback_file_copy src [] = some (src, src.length) := by
    have h0 := fallback_file_copy_spec src []
    simpa using h0
  cases flag with
  | true =>
    simp only [copy_to] at h
    rw [show ([] : List Nat) = src.take 0 ++ List.drop 0 ([] : List Nat) from by simp] at h
    have hres := copy_go_ok src [] true oracle 0 (by omega) (CopyOutcome.ok n) d f h n rfl
    refine ⟨hres.1, ?_, hfb⟩
    rw [hres.2]
    simp
  | false =>
    simp only [copy_to] at h
    rw [copy_to_go.eq_def] at h
    by_cases h0 : 0 < src.length
    · rw [if_pos h0] at h
      simp [hfb] at h
      exact ⟨h.1.symm, h.2.1.symm, hfb⟩
    · rw [if_neg h0] at h
      simp at h
      obtain ⟨ha, hb, _⟩ := h
      have hlen : src.length = 0 := by omega
      have hsrc : src = [] := List.length_eq_zero.mp hlen
      refine ⟨by omega, ?_, hfb⟩
      rw [hb, hsrc]

theorem copy_to_round_trip_witness :
    copy_to [1, 2, 3] [] [CfrResult.ok 3] true = some (CopyOutcome.ok 3, [1, 2, 3], true)
    ∧ (3 = ([1, 2, 3] : List Nat).length ∧ ([1, 2, 3] : List Nat) = [1, 2, 3]
        ∧ fallback_file_copy [1, 2, 3] [] = some ([1, 2, 3], 3)) :=
  ⟨by decide, copy_to_round_trip [1, 2, 3] [CfrResult.ok 3] true 3 [1, 2, 3] true (by decide)⟩

/-- The flag stored on an ENOSYS/EPERM errno error is false, and the
reporting entry heads the oracle. -/
theorem flag_downgrade_out (eno : Errno) (flag f : Bool) (rest : List CfrResult)
    (hd : eno = Errno.ENOSYS ∨ eno = Errno.EPERM) (hf : f = false) :
    f = flag ∨ (flag = true ∧ f = false
      ∧ (CfrResult.err (some Errno.ENOSYS) ∈ CfrResult.err (some eno) :: rest
          ∨ CfrResult.err (some Errno.EPERM) ∈ CfrResult.err (some eno) :: rest)) := by
  cases flag with
  | false => exact Or.inl hf
  | true =>
    refine Or.inr ⟨rfl, hf, ?_⟩
    cases hd with
    | inl h1 => subst h1; exact Or.inl (List.mem_cons_self _ _)
    | inr h1 => subst h1; exact Or.inr (List.mem_cons_self _ _)

/-- Every return of the loop leaves the global flag either unchanged or
downgraded to false, the downgrade happening only on an oracle entry whose
error carries ENOSYS or EPERM. -/
theorem copy_go_flag (src : List Nat) (fi : Bool) :
    ∀ (oracle : List CfrResult) (w sp dp : Nat) (dest : List Nat) (flag : Bool)
      (out : CopyOutcome) (d : List Nat) (f : Bool),
      copy_to_go src fi oracle w sp dp dest flag = some (out, d, f) →
      f = flag
      ∨ (flag = true ∧ f = false
          ∧ (CfrResult.err (some Errno.ENOSYS) ∈ oracle
              ∨ CfrResult.err (some Errno.EPERM) ∈ oracle)) := by
  intro oracle
  induction oracle with
  | nil =>
    intro w sp dp dest flag out d f h
    by_cases hlt : w < src.length
    · cases fi with
      | false =>
        rw [copy_to_go.eq_def, if_pos hlt] at h
        by_cases hw0 : w = 0
        · cases hfb : fallback_file_copy src dest with
          | none => simp [hw0, hfb] at h
          | some r =>
            simp [hw0, hfb] at h
            exact Or.inl h.2.2.symm
        · simp [hw0] at h
          exact Or.inl h.2.2.symm
      | true =>
        simp [copy_to_go, hlt] at h
    · rw [copy_go_done src fi [] _ _ _ _ flag hlt] at h
      simp at h
      exact Or.inl h.2.2.symm
  | cons head rest ih =>
    intro w sp dp dest flag out d f h
    by_cases hlt : w < src.length
    · cases fi with
      | false =>
        rw [copy_to_go.eq_def, if_pos hlt] at h
        by_cases hw0 : w = 0
        · cases hfb : fallback_file_copy src dest with
          | none => simp [hw0, hfb] at h
          | some r =>
            simp [hw0, hfb] at h
            exact Or.inl h.2.2.symm
        · simp [hw0] at h
          exact Or.inl h.2.2.symm
      | true =>
        cases head with
        | ok m =>
          rw [copy_go_ok_step src m rest w sp dp dest flag hlt] at h
          rcases ih _ _ _ _ flag out d f h with h1 | ⟨h2, h3, h4⟩
          · exact Or.inl h1
          · refine Or.inr ⟨h2, h3, ?_⟩
            cases h4 with
            | inl hm => exact Or.inl (List.mem_cons_of_mem _ hm)
            | inr hm => exact Or.inr (List.mem_cons_of_mem _ hm)
        | err e =>
          rw [copy_to_go.eq_def, if_pos hlt] at h
          cases e with
          | none =>
            simp at h
            exact Or.inl h.2.2.symm
          | some eno =>
            by_cases hcap : eno = Errno.ENOSYS ∨ eno = Errno.EXDEV ∨ eno = Errno.EINVAL
                ∨ eno = Errno.EPERM
            · by_cases hw0 : w = 0
              · cases hfb : fallback_file_copy src dest with
                | none => simp [hcap, hw0, hfb] at h
                | some r =>
                  by_cases hd : eno = Errno.ENOSYS ∨ eno = Errno.EPERM
                  · simp [hcap, hw0, hfb, hd] at h
                    exact flag_downgrade_out eno flag f rest hd h.2.2
                  · simp [hcap, hw0, hfb, hd] at h
                    exact Or.inl h.2.2.symm
              · by_cases hd : eno = Errno.ENOSYS ∨ eno = Errno.EPERM
                · simp [hcap, hw0, hd] at h
                  exact flag_downgrade_out eno flag f rest hd h.2.2
                · simp [hcap, hw0, hd] at h
                  exact Or.inl h.2.2.symm
            · by_cases hd : eno = Errno.ENOSYS ∨ eno = Errno.EPERM
              · simp [hcap, hd] at h
                exact flag_downgrade_out eno flag f rest hd h.2.2
              · simp [hcap, hd] at h
                exact Or.inl h.2.2.symm
    · rw [copy_go_done src fi (head :: rest) _ _ _ _ flag hlt] at h
      simp at h
      exact Or.inl h.2.2.symm

/-- copy_to never upgrades the flag, and downgrades it only when the oracle
reported an ENOSYS or EPERM error. -/
theorem copy_to_flag_mono (src dest : List Nat) (oracle : List CfrResult)
    (flag : Bool) (out : CopyOutcome) (d : List Nat) (f : Bool)
    (h : copy_to src dest oracle flag = some (out, d, f)) :
    (flag = false → f = false)
    ∧ (flag = true → f = false →
        CfrResult.err (some Errno.ENOSYS) ∈ oracle
        ∨ CfrResult.err (some Errno.EPERM) ∈ oracle) := by
  have hc := copy_go_flag src flag oracle 0 0 0 dest flag out d f (by simpa [copy_to] using h)
  constructor
  · intro hf
    rcases hc with h1 | ⟨h2, _, _⟩
    · rw [h1, hf]
    · rw [hf] at h2
      cases h2
  · intro ht hf
    rcases hc with h1 | ⟨_, _, h4⟩
    · rw [hf, ht] at h1
      cases h1
    · exact h4

theorem copy_to_seq_false (calls : List CopyCall) : copy_to_seq calls false = false := by
  induction calls with
  | nil => rfl
  | cons c rest ih =>
    have hstep : copy_to_seq (c :: rest) false = copy_to_seq rest
        (match copy_to c.src c.dest c.oracle false with
          | some r => r.2.2
          | none => false) := rfl
    rw [hstep]
    cases hc : copy_to c.src c.dest c.oracle false with
    | none => exact ih
    | some r =>
      obtain ⟨rout, rd, rf⟩ := r
      have hf : rf = false :=
        (copy_to_flag_mono c.src c.dest c.oracle false rout rd rf hc).1 rfl
      show copy_to_seq rest rf = false
      rw [hf]
      exact ih

theorem copy_to_seq_mono (calls : List CopyCall) (flag : Bool)
    (h : copy_to_seq calls flag = true) : flag = true := by
  cases flag with
  | true => rfl
  | false =>
    rw [copy_to_seq_false] at h
    exact h

/-- C3: HAS_COPY_FILE_RANGE starts out true; one copy_to call never turns
it from false to true; it becomes false only when the syscall oracle
reported ENOSYS or EPERM; and across any sequence of calls a final value of
true means it was true all along. -/
theorem has_copy_file_range_monotone (src dest : List Nat) (oracle : List CfrResult)
    (flag : Bool) (out : CopyOutcome) (d : List Nat) (f : Bool) (calls : List CopyCall)
    (h : copy_to src dest oracle flag = some (out, d, f)) :
    HAS_COPY_FILE_RANGE_init = true
    ∧ (flag = false → f = false)
    ∧ (flag = true → f = false →
        CfrResult.err (some Errno.ENOSYS) ∈ oracle
        ∨ CfrResult.err (some Errno.EPERM) ∈ oracle)
    ∧ (copy_to_seq calls flag = true → flag = true) := by
  have hm := copy_to_flag_mono src dest oracle flag out d f h
  exact ⟨rfl, hm.1, hm.2, copy_to_seq_mono calls flag⟩

theorem has_copy_file_range_monotone_witness :
    copy_to [1] [] [CfrResult.err (some Errno.ENOSYS)] true
      = some (CopyOutcome.ok 1, [1], false)
    ∧ (HAS_COPY_FILE_RANGE_init = true
        ∧ (true = false → false = false)
        ∧ (true = true → false = false →
            CfrResult.err (some Errno.ENOSYS) ∈ [CfrResult.err (some Errno.ENOSYS)]
            ∨ CfrResult.err (some Errno.EPERM) ∈ [CfrResult.err (some Errno.ENOSYS)])
        ∧ (copy_to_seq [] true = true → true = true)) :=
  ⟨by decide,
    has_copy_file_range_monotone [1] [] [CfrResult.err (some Errno.ENOSYS)] true
      (CopyOutcome.ok 1) [1] false [] (by decide)⟩

/-- C2 counterexample: a capability error (EXDEV) reported by the syscall
after 1 byte was already copied by the fast path makes copy_to panic
(assert_eq!(written, 0)); the error is not surfaced as the result. -/
theorem copy_to_midcopy_surfaces_cex :
    copy_to [0, 1] [] [CfrResult.ok 1, CfrResult.err (some Errno.EXDEV)] true
      = some (CopyOutcome.panicked, [0], true)
    ∧ CopyOutcome.panicked ≠ CopyOutcome.err (CopyIOError.raw Errno.EXDEV) :=
  ⟨by decide, by decide⟩

/-- C2 amended: when the range-copy syscall reports a capability error
(ENOSYS, EXDEV, EINVAL or EPERM) after some bytes were already copied by
the fast path, copy_to does not fall back and does not surface the error:
the assert_eq!(written, 0) assertion fires (a panic), after the
process-wide flag was stored false for ENOSYS/EPERM. -/
theorem copy_to_midcopy_capability_panics (src : List Nat) (rest : List CfrResult)
    (m : Nat) (e : Errno)
    (h1 : 0 < m) (h2 : m < src.length) (h3 : src.length < 2 ^ 64)
    (hcap : e = Errno.ENOSYS ∨ e = Errno.EXDEV ∨ e = Errno.EINVAL ∨ e = Errno.EPERM) :
    copy_to src [] (CfrResult.ok m :: CfrResult.err (some e) :: rest) true
      = some (CopyOutcome.panicked, src.take m,
          if e = Errno.ENOSYS ∨ e = Errno.EPERM then false else true) := by
  simp only [copy_to]
  have hlt0 : (0 : Nat) < src.length := by omega
  rw [copy_go_ok_step src m (CfrResult.err (some e) :: rest) 0 0 0 [] true hlt0]
  have hret : min m (min (min (src.length - 0) usizeMax) (src.length - 0)) = m := by
    unfold usizeMax
    omega
  rw [hret]
  have hdest : write_all_at [] ((src.drop 0).take m) 0 = src.take m := by
    unfold write_all_at
    simp
  rw [hdest]
  rw [copy_to_go.eq_def]
  rw [if_pos (show 0 + m < src.length by omega)]
  have hm0 : ¬ (0 + m = 0) := by omega
  have hm0' : ¬ (m = 0) := by omega
  simp [hcap, hm0, hm0']

theorem copy_to_midcopy_capability_panics_witness :
    (0 < 1 ∧ 1 < ([5, 6] : List Nat).length ∧ ([5, 6] : List Nat).length < 2 ^ 64
      ∧ (Errno.EXDEV = Errno.ENOSYS ∨ Errno.EXDEV = Errno.EXDEV
          ∨ Errno.EXDEV = Errno.EINVAL ∨ Errno.EXDEV = Errno.EPERM))
    ∧ copy_to [5, 6] [] [CfrResult.ok 1, CfrResult.err (some Errno.EXDEV)] true
        = some (CopyOutcome.panicked, List.take 1 [5, 6],
            if Errno.EXDEV = Errno.ENOSYS ∨ Errno.EXDEV = Errno.EPERM then false else true) :=
  ⟨⟨by decide, by decide, by decide, by decide⟩,
    copy_to_midcopy_capability_panics [5, 6] [] 1 Errno.EXDEV (by decide) (by decide)
      (by decide) (by decide)⟩

/-- io::ErrorKind values the wrappers inspect, plus stand-ins for the rest. -/
inductive ErrorKind
  | NotFound
  | AlreadyExists
  | PermissionDenied
  | InvalidInput
  | OtherK
  deriving DecidableEq

/-- A file handle's contents. -/
abbrev FsFile := List Nat

/-- An openat::Metadata stand-in. -/
structure FsMetadata where
  len : Nat
  deriving DecidableEq

/-- An openat::Dir sub-directory handle stand-in. -/
abbrev FsDirHandle := Nat

/-- open_file_optional: Ok(Some) on success, Ok(None) on NotFound, the
error itself otherwise.  `r` is the underlying self.open_file result. -/
def open_file_optional (r : Except ErrorKind FsFile) : Except ErrorKind (Option FsFile) :=
  match r with
  | Except.ok file => Except.ok (some file)
  | Except.error e =>
    if e = ErrorKind.NotFound then Except.ok none else Except.error e

/-- remove_file_optional: Ok(()) on success and on NotFound, the error
itself otherwise.  `r` is the underlying self.remove_file result. -/
def remove_file_optional (r : Except ErrorKind Unit) : Except ErrorKind Unit :=
  match r with
  | Except.ok _ => Except.ok ()
  | Except.error e =>
    if e = ErrorKind.NotFound then Except.ok () else Except.error e

/-- metadata_optional over the underlying self.metadata result. -/
def metadata_optional (r : Except ErrorKind FsMetadata) :
    Except ErrorKind (Option FsMetadata) :=
  match r with
  | Except.ok m => Except.ok (some m)
  | Except.error e =>
    if e = ErrorKind.NotFound then Except.ok none else Except.error e

/-- sub_dir_optional over the underlying self.sub_dir result. -/
def sub_dir_optional (r : Except ErrorKind FsDirHandle) :
    Except ErrorKind (Option FsDirHandle) :=
  match r with
  | Except.ok d => Except.ok (some d)
  | Except.error e =>
    if e = ErrorKind.NotFound then Except.ok none else Except.error e

/-- C7: each optional wrapper yields an absent value exactly on NotFound,
a present value on success, and propagates every other error unchanged;
remove_file_optional succeeds on success and on NotFound and propagates
every other error unchanged. -/
theorem optional_wrappers_not_found (rf : Except ErrorKind FsFile)
    (rm : Except ErrorKind FsMetadata) (rd : Except ErrorKind FsDirHandle)
    (file : FsFile) (meta : FsMetadata) (dh : FsDirHandle) (e : ErrorKind)
    (he : e ≠ ErrorKind.NotFound) :
    (open_file_optional rf = Except.ok none ↔ rf = Except.error ErrorKind.NotFound)
    ∧ (metadata_optional rm = Except.ok none ↔ rm = Except.error ErrorKind.NotFound)
    ∧ (sub_dir_optional rd = Except.ok none ↔ rd = Except.error ErrorKind.NotFound)
    ∧ open_file_optional (Except.ok file) = Except.ok (some file)
    ∧ metadata_optional (Except.ok meta) = Except.ok (some meta)
    ∧ sub_dir_optional (Except.ok dh) = Except.ok (some dh)
    ∧ open_file_optional (Except.error e) = Except.error e
    ∧ metadata_optional (Except.error e) = Except.error e
    ∧ sub_dir_optional (Except.error e) = Except.error e
    ∧ remove_file_optional (Except.ok ()) = Except.ok ()
    ∧ remove_file_optional (Except.error ErrorKind.NotFound) = Except.ok ()
    ∧ remove_file_optional (Except.error e) = Except.error e := by
  refine ⟨?_, ?_, ?_, rfl, rfl, rfl, ?_, ?_, ?_, rfl, rfl, ?_⟩
  · cases rf with
    | ok v => simp [open_file_optional]
    | error e2 =>
      by_cases h2 : e2 = ErrorKind.NotFound
      · subst h2; simp [open_file_optional]
      · simp [open_file_optional, h2]
  · cases rm with
    | ok v => simp [metadata_optional]
    | error e2 =>
      by_cases h2 : e2 = ErrorKind.NotFound
      · subst h2; simp [metadata_optional]
      · simp [metadata_optional, h2]
  · cases rd with
    | ok v => simp [sub_dir_optional]
    | error e2 =>
      by_cases h2 : e2 = ErrorKind.NotFound
      · subst h2; simp [sub_dir_optional]
      · simp [sub_dir_optional, h2]
  · simp [open_file_optional, he]
  · simp [metadata_optional, he]
  · simp [sub_dir_optional, he]
  · simp [remove_file_optional, he]

theorem optional_wrappers_not_found_witness :
    (ErrorKind.PermissionDenied ≠ ErrorKind.NotFound)
    ∧ ((open_file_optional (Except.error ErrorKind.NotFound) = Except.ok none
          ↔ Except.error ErrorKind.NotFound
              = (Except.error ErrorKind.NotFound : Except ErrorKind FsFile))
        ∧ (metadata_optional (Except.error ErrorKind.NotFound) = Except.ok none
            ↔ Except.error ErrorKind.NotFound
                = (Except.error ErrorKind.NotFound : Except ErrorKind FsMetadata))
        ∧ (sub_dir_optional (Except.error ErrorKind.NotFound) = Except.ok none
            ↔ Except.error ErrorKind.NotFound
                = (Except.error ErrorKind.NotFound : Except ErrorKind FsDirHandle))
        ∧ open_file_optional (Except.ok [7]) = Except.ok (some [7])
        ∧ metadata_optional (Except.ok ⟨5⟩) = Except.ok (some ⟨5⟩)
        ∧ sub_dir_optional (Except.ok 3) = Except.ok (some 3)
        ∧ open_file_optional (Except.error ErrorKind.PermissionDenied)
            = Except.error ErrorKind.PermissionDenied
        ∧ metadata_optional (Except.error ErrorKind.PermissionDenied)
            = Except.error ErrorKind.PermissionDenied
        ∧ sub_dir_optional (Except.error ErrorKind.PermissionDenied)
            = Except.error ErrorKind.PermissionDenied
        ∧ remove_file_optional (Except.ok ()) = Except.ok ()
        ∧ remove_file_optional (Except.error ErrorKind.NotFound) = Except.ok ()
        ∧ remove_file_optional (Except.error ErrorKind.PermissionDenied)
            = Except.error ErrorKind.PermissionDenied) :=
  ⟨by decide,
    optional_wrappers_not_found (Except.error ErrorKind.NotFound)
      (Except.error ErrorKind.NotFound) (Except.error ErrorKind.NotFound)
      [7] ⟨5⟩ 3 ErrorKind.PermissionDenied (by decide)⟩

/-- A model of the directory tree under one openat::Dir: the existing
directories as component paths ([] being the Dir itself), each with the
mode it was created with, plus the paths on which mkdirat is denied
(standing for "any other error" such as EACCES). -/
structure Fs where
  dirs : List (List String × Nat)
  denied : List (List String)
  deriving DecidableEq

/-- The path names an existing directory ([] is the Dir itself). -/
def Fs.hasDir (fs : Fs) (p : List String) : Bool :=
  p.isEmpty || fs.dirs.any (fun q => q.1 == p)

/-- Modelled from the spec: the external create-directory collaborator
(openat mkdirat): already-exists when the name exists, a denied error on a
denied path, not-found when the parent is missing, success otherwise. -/
def create_dir (fs : Fs) (p : List String) (mode : Nat) : Except ErrorKind Fs :=
  if fs.hasDir p then Except.error ErrorKind.AlreadyExists
  else if p ∈ fs.denied then Except.error ErrorKind.PermissionDenied
  else if fs.hasDir p.dropLast then Except.ok { fs with dirs := (p, mode) :: fs.dirs }
  else Except.error ErrorKind.NotFound

/-- ensure_dir: create_dir but an AlreadyExists error is success. -/
def ensure_dir (fs : Fs) (p : List String) (mode : Nat) : Except ErrorKind Fs :=
  match create_dir fs p mode with
  | Except.ok fs2 => Except.ok fs2
  | Except.error e =>
    if e = ErrorKind.AlreadyExists then Except.ok fs else Except.error e

/-- impl_ensure_dir_all: walk up the path components, ensuring each
directory in turn (recurse on the parent while it is nonempty, then
ensure_dir the path itself). -/
def impl_ensure_dir_all (fs : Fs) (p : List String) (mode : Nat) : Except ErrorKind Fs :=
  if hp : p.dropLast.isEmpty then ensure_dir fs p mode
  else
    match impl_ensure_dir_all fs p.dropLast mode with
    | Except.ok fs2 => ensure_dir fs2 p mode
    | Except.error e => Except.error e
termination_by p.length
decreasing_by
  rw [List.length_dropLast]
  rcases p with _ | ⟨a, l⟩
  · simp at hp
  · simp

/-- ensure_dir_all: one direct create_dir first; AlreadyExists is success,
NotFound takes the recursive path, any other error is returned. -/
def ensure_dir_all (fs : Fs) (p : List String) (mode : Nat) : Except ErrorKind Fs :=
  match create_dir fs p mode with
  | Except.ok fs2 => Except.ok fs2
  | Except.error ErrorKind.AlreadyExists => Except.ok fs
  | Except.error ErrorKind.NotFound => impl_ensure_dir_all fs p mode
  | Except.error e => Except.error e

/-- Well-formed tree: every recorded directory has an existing parent. -/
def Fs.wfb (fs : Fs) : Bool :=
  fs.dirs.all (fun q => fs.hasDir q.1.dropLast)

/-- Every prefix of p (every level root-ward) exists. -/
def Fs.hasAllPrefixes (fs : Fs) (p : List String) : Bool :=
  (List.range (p.length + 1)).all (fun k => fs.hasDir (p.take k))

theorem hasDir_nil (fs : Fs) : fs.hasDir [] = true := by
  simp [Fs.hasDir]

theorem hasAllPrefixes_iff (fs : Fs) (p : List String) :
    fs.hasAllPrefixes p = true ↔ ∀ k, k ≤ p.length → fs.hasDir (p.take k) = true := by
  simp only [Fs.hasAllPrefixes, List.all_eq_true, List.mem_range]
  constructor
  · intro h k hk
    exact h k (by omega)
  · intro h k hk
    exact h k (by omega)

theorem hasDir_extend_self (fs : Fs) (p : List String) (mode : Nat) :
    Fs.hasDir { fs with dirs := (p, mode) :: fs.dirs } p = true := by
  simp [Fs.hasDir]

theorem hasDir_extend_mono (fs : Fs) (p : List String) (mode : Nat) (q : List String)
    (h : fs.hasDir q = true) :
    Fs.hasDir { fs with dirs := (p, mode) :: fs.dirs } q = true := by
  simp only [Fs.hasDir, List.any_cons, Bool.or_eq_true] at h ⊢
  rcases h with h | h
  · exact Or.inl h
  · exact Or.inr (Or.inr h)

theorem create_dir_ok (fs fs2 : Fs) (p : List String) (mode : Nat)
    (h : create_dir fs p mode = Except.ok fs2) :
    fs2 = { fs with dirs := (p, mode) :: fs.dirs }
    ∧ fs.hasDir p.dropLast = true := by
  by_cases h1 : fs.hasDir p = true
  · simp [create_dir, h1] at h
  · by_cases h2 : p ∈ fs.denied
    · simp [create_dir, h1, h2] at h
    · by_cases h3 : fs.hasDir p.dropLast = true
      · simp [create_dir, h1, h2, h3] at h
        exact ⟨h.symm, h3⟩
      · simp [create_dir, h1, h2, h3] at h

theorem create_dir_already (fs : Fs) (p : List String) (mode : Nat)
    (h : create_dir fs p mode = Except.error ErrorKind.AlreadyExists) :
    fs.hasDir p = true := by
  by_cases h1 : fs.hasDir p = true
  · exact h1
  · by_cases h2 : p ∈ fs.denied
    · simp [create_dir, h1, h2] at h
    · by_cases h3 : fs.hasDir p.dropLast = true
      · simp [create_dir, h1, h2, h3] at h
      · simp [create_dir, h1, h2, h3] at h

theorem create_dir_exists_already (fs : Fs) (p : List String) (mode : Nat)
    (h : fs.hasDir p = true) :
    create_dir fs p mode = Except.error ErrorKind.AlreadyExists := by
  unfold create_dir
  rw [if_pos h]

/-- wfb is preserved by a create_dir extension. -/
theorem wfb_extend (fs : Fs) (p : List String) (mode : Nat)
    (hw : fs.wfb = true) (hpar : fs.hasDir p.dropLast = true) :
    Fs.wfb { fs with dirs := (p, mode) :: fs.dirs } = true := by
  simp only [Fs.wfb, List.all_cons, Bool.and_eq_true]
  refine ⟨hasDir_extend_mono fs p mode p.dropLast hpar, ?_⟩
  simp only [Fs.wfb, List.all_eq_true] at hw
  rw [List.all_eq_true]
  intro q hq
  exact hasDir_extend_mono fs p mode q.1.dropLast (hw q hq)

theorem ensure_dir_ok (fs fs2 : Fs) (p : List String) (mode : Nat)
    (h : ensure_dir fs p mode = Except.ok fs2) :
    fs2.hasDir p = true
    ∧ (∀ q, fs.hasDir q = true → fs2.hasDir q = true)
    ∧ (fs.wfb = true → fs2.wfb = true) := by
  unfold ensure_dir at h
  cases hc : create_dir fs p mode with
  | ok fs3 =>
    rw [hc] at h
    simp at h
    subst h
    obtain ⟨hval, hpar⟩ := create_dir_ok fs fs3 p mode hc
    subst hval
    exact ⟨hasDir_extend_self fs p mode,
      fun q hq => hasDir_extend_mono fs p mode q hq,
      fun hw => wfb_extend fs p mode hw hpar⟩
  | error e =>
    rw [hc] at h
    by_cases he : e = ErrorKind.AlreadyExists
    · subst he
      simp at h
      subst h
      exact ⟨create_dir_already fs p mode hc, fun q hq => hq, fun hw => hw⟩
    · simp [he] at h

theorem dropLast_take_eq (l : List String) (k : Nat) (h : k ≤ l.length - 1) :
    l.dropLast.take k = l.take k := by
  rw [List.dropLast_eq_take, List.take_take]
  congr 1
  omega

/-- impl_ensure_dir_all, on success, has ensured every level of p, kept
every existing directory, and preserved well-formedness. -/
theorem impl_ensure_dir_all_ok : ∀ (L : Nat) (p : List String), p.length ≤ L →
    ∀ (fs fs2 : Fs) (mode : Nat),
      impl_ensure_dir_all fs p mode = Except.ok fs2 →
      (∀ k, k ≤ p.length → fs2.hasDir (p.take k) = true)
      ∧ (∀ q, fs.hasDir q = true → fs2.hasDir q = true)
      ∧ (fs.wfb = true → fs2.wfb = true) := by
  intro L
  induction L with
  | zero =>
    intro p hL fs fs2 mode h
    have hp : p = [] := List.length_eq_zero.mp (by omega)
    subst hp
    unfold impl_ensure_dir_all at h
    simp at h
    obtain ⟨h1, h2, h3⟩ := ensure_dir_ok fs fs2 [] mode h
    refine ⟨?_, h2, h3⟩
    intro k hk
    have hk0 : k = 0 := by simpa using hk
    subst hk0
    simpa using h1
  | succ L ih =>
    intro p hL fs fs2 mode h
    unfold impl_ensure_dir_all at h
    by_cases hpe : p.dropLast.isEmpty = true
    · rw [dif_pos hpe] at h
      obtain ⟨h1, h2, h3⟩ := ensure_dir_ok fs fs2 p mode h
      refine ⟨?_, h2, h3⟩
      have hdl0 : p.dropLast = [] := by
        cases hdp : p.dropLast with
        | nil => rfl
        | cons a l => rw [hdp] at hpe; simp at hpe
      have hlen : p.length ≤ 1 := by
        have hld := List.length_dropLast p
        rw [hdl0] at hld
        simp at hld
        omega
      intro k hk
      by_cases hk0 : k = 0
      · subst hk0
        simpa using hasDir_nil fs2
      · have hkl : k = p.length := by omega
        rw [hkl, List.take_length]
        exact h1
    · rw [dif_neg hpe] at h
      cases hrec : impl_ensure_dir_all fs p.dropLast mode with
      | error e => rw [hrec] at h; simp at h
      | ok fs3 =>
        rw [hrec] at h
        simp at h
        have hplen : p ≠ [] := by
          intro hcon
          rw [hcon] at hpe
          simp at hpe
        have hdl : p.dropLast.length ≤ L := by
          rw [List.length_dropLast]
          have : 0 < p.length := List.length_pos.mpr hplen
          omega
        obtain ⟨ih1, ih2, ih3⟩ := ih p.dropLast hdl fs fs3 mode hrec
        obtain ⟨e1, e2, e3⟩ := ensure_dir_ok fs3 fs2 p mode h
        refine ⟨?_, fun q hq => e2 q (ih2 q hq), fun hw => e3 (ih3 hw)⟩
        intro k hk
        by_cases hkl : k = p.length
        · rw [hkl, List.take_length]
          exact e1
        · have hkle : k ≤ p.length - 1 := by omega
          rw [← dropLast_take_eq p k hkle]
          refine e2 _ (ih1 k ?_)
          rw [List.length_dropLast]
          omega

/-- In a well-formed tree, every prefix of an existing directory exists. -/
theorem wf_prefixes : ∀ (L : Nat) (q : List String), q.length ≤ L →
    ∀ (fs : Fs), fs.wfb = true → fs.hasDir q = true →
      ∀ k, k ≤ q.length → fs.hasDir (q.take k) = true := by
  intro L
  induction L with
  | zero =>
    intro q hL fs hw hq k hk
    have hq0 : q = [] := List.length_eq_zero.mp (by omega)
    subst hq0
    have hk0 : k = 0 := by simpa using hk
    subst hk0
    simpa using hasDir_nil fs
  | succ L ih =>
    intro q hL fs hw hq k hk
    by_cases hkl : k = q.length
    · rw [hkl, List.take_length]
      exact hq
    · by_cases hqe : q = []
      · subst hqe
        have hk0 : k = 0 := by simpa using hk
        exact absurd (by simpa using hk0) hkl
      · have hqd : q.dropLast.length ≤ L := by
          rw [List.length_dropLast]
          have : 0 < q.length := List.length_pos.mpr hqe
          omega
        have hw' : ∀ x ∈ fs.dirs, fs.hasDir x.1.dropLast = true := by
          simpa [Fs.wfb, List.all_eq_true] using hw
        have hpar : fs.hasDir q.dropLast = true := by
          simp only [Fs.hasDir, List.any_eq_true, Bool.or_eq_true] at hq
          rcases hq with hq | ⟨x, hx, hbeq⟩
          · exact absurd (by simpa using hq) hqe
          · have hxq : x.1 = q := by simpa using hbeq
            rw [← hxq]
            exact hw' x hx
        have hk' : k ≤ q.dropLast.length := by
          rw [List.length_dropLast]
          omega
        have hres := ih q.dropLast hqd fs hw hpar k hk'
        rwa [dropLast_take_eq q k (by rw [List.length_dropLast] at hk'; omega)] at hres

/-- C8: ensure_dir_all is idempotent, on success every level of the path
exists (the leaf having been attempted first, parents only on not-found),
already-exists is success at any level, and any other create_dir error is
returned. -/
theorem ensure_dir_all_idempotent (fs fs2 gs : Fs) (p : List String) (mode : Nat)
    (e : ErrorKind)
    (hwf : fs.wfb = true)
    (h : ensure_dir_all fs p mode = Except.ok fs2)
    (he1 : e ≠ ErrorKind.AlreadyExists) (he2 : e ≠ ErrorKind.NotFound)
    (hg : create_dir gs p mode = Except.error e) :
    fs2.hasAllPrefixes p = true
    ∧ ensure_dir_all fs2 p mode = Except.ok fs2
    ∧ ensure_dir_all gs p mode = Except.error e := by
  have hpre : ∀ k, k ≤ p.length → fs2.hasDir (p.take k) = true := by
    unfold ensure_dir_all at h
    cases hc : create_dir fs p mode with
    | ok fs3 =>
      rw [hc] at h
      simp at h
      subst h
      obtain ⟨hval, hpar⟩ := create_dir_ok fs fs3 p mode hc
      intro k hk
      by_cases hkl : k = p.length
      · rw [hkl, List.take_length, hval]
        exact hasDir_extend_self fs p mode
      · have hk1 : k ≤ p.length - 1 := by omega
        have h5 := wf_prefixes p.dropLast.length p.dropLast (le_refl _) fs hwf hpar k
          (by rw [List.length_dropLast]; omega)
        rw [dropLast_take_eq p k hk1] at h5
        rw [hval]
        exact hasDir_extend_mono fs p mode (p.take k) h5
    | error ee =>
      rw [hc] at h
      cases ee with
      | AlreadyExists =>
        simp at h
        subst h
        exact fun k hk =>
          wf_prefixes p.length p (le_refl _) fs hwf (create_dir_already fs p mode hc) k hk
      | NotFound =>
        have h' : impl_ensure_dir_all fs p mode = Except.ok fs2 := h
        exact (impl_ensure_dir_all_ok p.length p (le_refl _) fs fs2 mode h').1
      | PermissionDenied => simp at h
      | InvalidInput => simp at h
      | OtherK => simp at h
  have hp2 : fs2.hasDir p = true := by
    have hlast := hpre p.length (le_refl _)
    rwa [List.take_length] at hlast
  refine ⟨(hasAllPrefixes_iff fs2 p).mpr hpre, ?_, ?_⟩
  · unfold ensure_dir_all
    rw [create_dir_exists_already fs2 p mode hp2]
  · unfold ensure_dir_all
    rw [hg]
    cases e with
    | NotFound => exact absurd rfl he2
    | AlreadyExists => exact absurd rfl he1
    | PermissionDenied => rfl
    | InvalidInput => rfl
    | OtherK => rfl

theorem ensure_dir_all_idempotent_witness :
    (Fs.wfb ⟨[], []⟩ = true
      ∧ ensure_dir_all ⟨[], []⟩ ["a"] 7 = Except.ok ⟨[(["a"], 7)], []⟩
      ∧ ErrorKind.PermissionDenied ≠ ErrorKind.AlreadyExists
      ∧ ErrorKind.PermissionDenied ≠ ErrorKind.NotFound
      ∧ create_dir ⟨[], [["a"]]⟩ ["a"] 7 = Except.error ErrorKind.PermissionDenied)
    ∧ (Fs.hasAllPrefixes ⟨[(["a"], 7)], []⟩ ["a"] = true
        ∧ ensure_dir_all ⟨[(["a"], 7)], []⟩ ["a"] 7 = Except.ok ⟨[(["a"], 7)], []⟩
        ∧ ensure_dir_all ⟨[], [["a"]]⟩ ["a"] 7 = Except.error ErrorKind.PermissionDenied) :=
  ⟨⟨by decide, by rfl, by decide, by decide, by rfl⟩,
    ensure_dir_all_idempotent ⟨[], []⟩ ⟨[(["a"], 7)], []⟩ ⟨[], [["a"]]⟩ ["a"] 7
      ErrorKind.PermissionDenied (by decide) (by rfl) (by decide) (by decide) (by rfl)⟩

/-- Association-list lookup on directory entries. -/
def lookupL : List (String × List Nat) → String → Option (List Nat)
  | [], _ => none
  | q :: l, n => if q.1 = n then some q.2 else lookupL l n

/-- Drop every entry with the given name. -/
def removeL : List (String × List Nat) → String → List (String × List Nat)
  | [], _ => []
  | q :: l, n => if q.1 = n then removeL l n else q :: removeL l n

/-- The visible contents of the target directory: name ↦ file bytes.
Unnamed temp files (new_unnamed_file) have no entry here. -/
structure DirState where
  files : List (String × List Nat)
  deriving DecidableEq

def DirState.lookup (d : DirState) (n : String) : Option (List Nat) :=
  lookupL d.files n

/-- Bind a name to contents (link_file_at on success, creating the name). -/
def DirState.set (d : DirState) (n : String) (c : List Nat) : DirState :=
  ⟨(n, c) :: removeL d.files n⟩

/-- Remove a name (remove_file on success). -/
def DirState.remove (d : DirState) (n : String) : DirState :=
  ⟨removeL d.files n⟩

/-- Modelled from the spec: rename-within-directory with atomic replace
(local_rename): on success dst holds src's bytes and src is gone; an
absent source leaves the directory unchanged. -/
def DirState.rename (d : DirState) (src dst : String) : DirState :=
  match d.lookup src with
  | some c => DirState.set (d.remove src) dst c
  | none => d

/-- FileWriter: the buffered writer's accumulated bytes (the unnamed temp
file plus its buffer), the temporary-name prefix and suffix strings, the
destination name, and the drop_bomb armed state.  (The back-reference to
the Dir is passed explicitly; the mode of the unnamed temp file is outside
this byte-level model.) -/
structure FileWriter where
  content : List Nat
  tmpPre : String
  tmpSuffix : String
  destname : String
  bomb : Bool
  deriving DecidableEq

/-- The drop_bomb message of FileWriter::new. -/
def bombMsg : String :=
  "FileWriter must be explicitly completed/abandoned to ensure errors are checked"

/-- FileWriter::new: empty buffered writer over the fresh unnamed temp
file, default prefix ".tmp." and suffix ".tmp", bomb armed. -/
def FileWriter.new (destname : String) : FileWriter :=
  { content := [], tmpPre := ".tmp.", tmpSuffix := ".tmp",
    destname := destname, bomb := true }

/-- new_file_writer: allocates the unnamed temp file (which has no
directory entry) and returns the writer; the directory is unchanged.
(In the source a new_unnamed_file error propagates; the DirState model
gives that call no failure mode.) -/
def new_file_writer (dir : DirState) (destname : String) : DirState × FileWriter :=
  (dir, FileWriter.new destname)

/-- A write through the BufWriter: appends bytes, touches no name. -/
def FileWriter.write (w : FileWriter) (bs : List Nat) : FileWriter :=
  { w with content := w.content ++ bs }

/-- abandon(): defuse the bomb and drop the buffered stream. -/
def FileWriter.abandon (w : FileWriter) : FileWriter :=
  { w with bomb := false }

/-- One candidate temporary name: prefix, then 8 characters sampled from
the rng stream (attempt k uses samples 8k..8k+7), then suffix. -/
def genName (pre suf : String) (rchars : Nat → Char) (k : Nat) : String :=
  pre ++ String.mk (List.ofFn (fun i : Fin 8 => rchars (8 * k + i.val))) ++ suf

/-- The link_file_at retry loop of complete_with.  Each entry of outs is
the outcome of one link_file_at call (none = success, some e = an error of
kind e); on success the generated name is bound to the temp file's bytes,
on AlreadyExists a fresh name is generated and the loop retries, any other
error is returned.  none when the outs oracle runs out. -/
def link_loop (dir : DirState) (content : List Nat) (pre suf : String)
    (rchars : Nat → Char) (k : Nat) (outs : List (Option ErrorKind)) :
    Option (Except ErrorKind (String × DirState)) :=
  match outs with
  | [] => none
  | o :: rest =>
    let tmpname := genName pre suf rchars k
    match o with
    | none => some (Except.ok (tmpname, DirState.set dir tmpname content))
    | some e =>
      if e = ErrorKind.AlreadyExists then link_loop dir content pre suf rchars (k + 1) rest
      else some (Except.error e)

/-- Outcomes of the external calls one complete_with makes: into_inner
(the flush), the caller hook f, the rng sample stream, the link_file_at
outcomes, the local_rename outcome, and whether the best-effort cleanup
remove_file succeeds. -/
structure CommitOracle where
  flushErr : Option ErrorKind
  hookErr : Option ErrorKind
  rchars : Nat → Char
  linkOuts : List (Option ErrorKind)
  renameErr : Option ErrorKind
  removeOk : Bool

/-- complete_with: defuse the bomb first; flush (into_inner); run the hook
on the fd; link the anonymous temp file to a fresh random visible name,
retrying on AlreadyExists; rename it over destname; on rename failure
remove the visible temp name best-effort (ignoring that error) and return
the rename error.  Result: the io result, the directory afterwards and the
bomb state (always defused).  none when the link oracle runs out. -/
def complete_with (w : FileWriter) (dir : DirState) (o : CommitOracle) :
    Option (Except ErrorKind Unit × DirState × Bool) :=
  match o.flushErr with
  | some e => some (Except.error e, dir, false)
  | none =>
    match o.hookErr with
    | some e => some (Except.error e, dir, false)
    | none =>
      match link_loop dir w.content w.tmpPre w.tmpSuffix o.rchars 0 o.linkOuts with
      | none => none
      | some (Except.error e) => some (Except.error e, dir, false)
      | some (Except.ok (tmpname, dir2)) =>
        match o.renameErr with
        | none => some (Except.ok (), DirState.rename dir2 tmpname w.destname, false)
        | some e =>
          some (Except.error e,
            (if o.removeOk then DirState.remove dir2 tmpname else dir2), false)

/-- complete(): complete_with with a no-op hook (the hook cannot fail). -/
def FileWriter.complete (w : FileWriter) (dir : DirState) (o : CommitOracle) :
    Option (Except ErrorKind Unit × DirState × Bool) :=
  complete_with w dir { o with hookErr := none }

/-- What dropping a FileWriter does. -/
inductive DropBehavior
  | panicked (msg : String)
  | silent
  deriving DecidableEq

/-- Modelled from the spec: the drop_bomb guard at drop time panics with
the message while still armed, unless the thread is already panicking. -/
def FileWriter.dropCheck (w : FileWriter) (threadPanicking : Bool) : DropBehavior :=
  if w.bomb && !threadPanicking then DropBehavior.panicked bombMsg
  else DropBehavior.silent

/-- write_file_with: create the writer, run the caller closure (modelled
as the bytes bs it writes and the result res it returns), abandon on a
closure error returning that error unchanged, else complete (no-op hook)
and return Ok(v), a completion io error being converted through the
caller's error type (E: From of io::Error). -/
def write_file_with {E T : Type} (dir : DirState) (destname : String)
    (bs : List Nat) (res : Except E T) (liftErr : ErrorKind → E) (o : CommitOracle) :
    Option (Except E T × DirState × Bool) :=
  let p := new_file_writer dir destname
  let w := FileWriter.write p.2 bs
  match res with
  | Except.error e => some (Except.error e, p.1, (FileWriter.abandon w).bomb)
  | Except.ok v =>
    match FileWriter.complete w p.1 o with
    | none => none
    | some (Except.ok _, d2, b2) => some (Except.ok v, d2, b2)
    | some (Except.error ioe, d2, b2) => some (Except.error (liftErr ioe), d2, b2)

/-- write_file_with_sync: as write_file_with but completing with the
sync_all hook, whose outcome is the oracle's hookErr. -/
def write_file_with_sync {E T : Type} (dir : DirState) (destname : String)
    (bs : List Nat) (res : Except E T) (liftErr : ErrorKind → E) (o : CommitOracle) :
    Option (Except E T × DirState × Bool) :=
  let p := new_file_writer dir destname
  let w := FileWriter.write p.2 bs
  match res with
  | Except.error e => some (Except.error e, p.1, (FileWriter.abandon w).bomb)
  | Except.ok v =>
    match complete_with w p.1 o with
    | none => none
    | some (Except.ok _, d2, b2) => some (Except.ok v, d2, b2)
    | some (Except.error ioe, d2, b2) => some (Except.error (liftErr ioe), d2, b2)

/-- A full writer lifecycle ending in abandon: create (no name made),
write arbitrary chunks, abandon.  Returns the directory (threaded through
every step) and the final writer. -/
def abandon_session (dir : DirState) (destname : String) (chunks : List (List Nat)) :
    DirState × FileWriter :=
  let p := new_file_writer dir destname
  let w := chunks.foldl FileWriter.write p.2
  (p.1, FileWriter.abandon w)

/-- How many leading AlreadyExists collisions the link oracle reports. -/
def collisionCount : List (Option ErrorKind) → Nat
  | [] => 0
  | none :: _ => 0
  | some e :: rest => if e = ErrorKind.AlreadyExists then collisionCount rest + 1 else 0

/-- rand's Alphanumeric distribution samples letters and digits. -/
def isAlnumChar (c : Char) : Bool := c.isAlpha || c.isDigit

theorem lookupL_removeL (files : List (String × List Nat)) (n m : String) :
    lookupL (removeL files n) m = if m = n then none else lookupL files m := by
  induction files with
  | nil =>
    by_cases h : m = n <;> simp [removeL, lookupL, h]
  | cons q l ih =>
    by_cases h1 : q.1 = n
    · rw [removeL, if_pos h1, ih]
      by_cases h2 : m = n
      · rw [if_pos h2, if_pos h2]
      · rw [if_neg h2, if_neg h2, lookupL, if_neg (by rw [h1]; exact fun hc => h2 hc.symm)]
    · rw [removeL, if_neg h1, lookupL]
      by_cases h3 : q.1 = m
      · rw [if_pos h3, lookupL, if_pos h3, if_neg (by rw [← h3]; exact h1)]
      · rw [if_neg h3, ih, lookupL, if_neg h3]

theorem lookup_remove (d : DirState) (n m : String) :
    DirState.lookup (DirState.remove d n) m = if m = n then none else d.lookup m :=
  lookupL_removeL d.files n m

theorem lookup_set (d : DirState) (n m : String) (c : List Nat) :
    DirState.lookup (DirState.set d n c) m = if m = n then some c else d.lookup m := by
  unfold DirState.set DirState.lookup
  by_cases h : m = n
  · rw [if_pos h, lookupL, if_pos h.symm]
  · rw [if_neg h, lookupL, if_neg (fun hc => h hc.symm), lookupL_removeL, if_neg h]

theorem genName_length (pre suf : String) (rchars : Nat → Char) (k : Nat) :
    (genName pre suf rchars k).length = pre.length + 8 + suf.length := by
  unfold genName
  rw [String.length_append, String.length_append]
  simp

/-- A successful link_loop binds some attempt's generated name. -/
theorem link_loop_ok (dir : DirState) (content : List Nat) (pre suf : String)
    (rchars : Nat → Char) :
    ∀ (outs : List (Option ErrorKind)) (k : Nat) (t : String) (d2 : DirState),
      link_loop dir content pre suf rchars k outs = some (Except.ok (t, d2)) →
      ∃ j, k ≤ j ∧ t = genName pre suf rchars j ∧ d2 = DirState.set dir t content := by
  intro outs
  induction outs with
  | nil =>
    intro k t d2 h
    simp [link_loop] at h
  | cons o rest ih =>
    intro k t d2 h
    cases o with
    | none =>
      simp [link_loop] at h
      obtain ⟨h1, h2⟩ := h
      exact ⟨k, le_refl k, h1.symm, by rw [← h2, h1]⟩
    | some e =>
      by_cases he : e = ErrorKind.AlreadyExists
      · simp only [link_loop, if_pos he] at h
        obtain ⟨j, hj, hn, hd⟩ := ih (k + 1) t d2 h
        exact ⟨j, by omega, hn, hd⟩
      · simp [link_loop, he] at h

/-- A successful link_loop binds exactly the name of the attempt after the
oracle's leading collisions. -/
theorem link_loop_ok_name (dir : DirState) (content : List Nat) (pre suf : String)
    (rchars : Nat → Char) :
    ∀ (outs : List (Option ErrorKind)) (k : Nat) (t : String) (d2 : DirState),
      link_loop dir content pre suf rchars k outs = some (Except.ok (t, d2)) →
      t = genName pre suf rchars (k + collisionCount outs)
      ∧ d2 = DirState.set dir t content := by
  intro outs
  induction outs with
  | nil =>
    intro k t d2 h
    simp [link_loop] at h
  | cons o rest ih =>
    intro k t d2 h
    cases o with
    | none =>
      simp [link_loop] at h
      obtain ⟨h1, h2⟩ := h
      refine ⟨?_, by rw [← h2, h1]⟩
      rw [← h1]
      simp [collisionCount]
    | some e =>
      by_cases he : e = ErrorKind.AlreadyExists
      · simp only [link_loop, if_pos he] at h
        obtain ⟨hn, hd⟩ := ih (k + 1) t d2 h
        refine ⟨?_, hd⟩
        rw [hn]
        have harith : k + 1 + collisionCount rest
            = k + collisionCount (some e :: rest) := by
          simp [collisionCount, he]
          omega
        rw [harith]
      · simp [link_loop, he] at h

/-- Any number of collisions is retried through: after n AlreadyExists
outcomes and one success, the linked name is attempt k + n's. -/
theorem link_loop_collisions (dir : DirState) (content : List Nat) (pre suf : String)
    (rchars : Nat → Char) :
    ∀ (n k : Nat),
      link_loop dir content pre suf rchars k
          (List.replicate n (some ErrorKind.AlreadyExists) ++ [none])
        = some (Except.ok (genName pre suf rchars (k + n),
            DirState.set dir (genName pre suf rchars (k + n)) content)) := by
  intro n
  induction n with
  | zero =>
    intro k
    simp [link_loop]
  | succ n ih =>
    intro k
    rw [List.replicate_succ, List.cons_append]
    simp only [link_loop, if_pos rfl]
    rw [ih (k + 1)]
    have harith : k + 1 + n = k + (n + 1) := by omega
    rw [harith]
    simp

/-- A non-AlreadyExists link error aborts the loop with that error. -/
theorem link_loop_error (dir : DirState) (content : List Nat) (pre suf : String)
    (rchars : Nat → Char) (e : ErrorKind) (rest : List (Option ErrorKind)) (k : Nat)
    (he : e ≠ ErrorKind.AlreadyExists) :
    link_loop dir content pre suf rchars k (some e :: rest)
      = some (Except.error e) := by
  simp [link_loop, he]

/-- The bomb is defused on every return of complete_with. -/
theorem complete_with_defused (w : FileWriter) (dir : DirState) (o : CommitOracle)
    (r : Except ErrorKind Unit) (d2 : DirState) (b2 : Bool)
    (h : complete_with w dir o = some (r, d2, b2)) : b2 = false := by
  unfold complete_with at h
  cases hfe : o.flushErr with
  | some e =>
    rw [hfe] at h
    simp at h
    exact h.2.2
  | none =>
    rw [hfe] at h
    cases hhe : o.hookErr with
    | some e =>
      rw [hhe] at h
      simp at h
      exact h.2.2
    | none =>
      rw [hhe] at h
      cases hle : link_loop dir w.content w.tmpPre w.tmpSuffix o.rchars 0 o.linkOuts with
      | none =>
        rw [hle] at h
        simp at h
      | some res =>
        rw [hle] at h
        cases res with
        | error e =>
          simp at h
          exact h.2.2
        | ok pr =>
          obtain ⟨t, dir2⟩ := pr
          cases hre : o.renameErr with
          | none =>
            rw [hre] at h
            simp at h
            exact h.2.2
          | some e =>
            rw [hre] at h
            simp at h
            exact h.2.2

/-- C4: every failing complete_with returns the failing step's error and
leaves the destination name exactly as it was before; when the failing
step is specifically the rename, a removal of the visible temporary name
is attempted (its own error ignored) and the rename error is returned.
The destination name is assumed not to have the exact length of a
generated temporary name, ruling out the destname colliding with the
random temp name itself. -/
theorem complete_with_failure_frame (w w2 : FileWriter) (dir dirB dir2 d1 : DirState)
    (o o2 : CommitOracle) (e e2 : ErrorKind) (b : Bool) (t2 : String)
    (hlen : ¬ w.destname.length = w.tmpPre.length + 8 + w.tmpSuffix.length)
    (h : complete_with w dir o = some (Except.error e, d1, b))
    (hf2 : o2.flushErr = none) (hh2 : o2.hookErr = none)
    (hl2 : link_loop dirB w2.content w2.tmpPre w2.tmpSuffix o2.rchars 0 o2.linkOuts
        = some (Except.ok (t2, dir2)))
    (hr2 : o2.renameErr = some e2) :
    DirState.lookup d1 w.destname = DirState.lookup dir w.destname
    ∧ complete_with w2 dirB o2
        = some (Except.error e2,
            (if o2.removeOk then DirState.remove dir2 t2 else dir2), false) := by
  constructor
  · unfold complete_with at h
    cases hfe : o.flushErr with
    | some e3 =>
      rw [hfe] at h
      simp at h
      rw [h.2.1]
    | none =>
      rw [hfe] at h
      cases hhe : o.hookErr with
      | some e3 =>
        rw [hhe] at h
        simp at h
        rw [h.2.1]
      | none =>
        rw [hhe] at h
        cases hle : link_loop dir w.content w.tmpPre w.tmpSuffix o.rchars 0 o.linkOuts with
        | none =>
          rw [hle] at h
          simp at h
        | some res =>
          rw [hle] at h
          cases res with
          | error e3 =>
            simp at h
            rw [h.2.1]
          | ok pr =>
            obtain ⟨t, dir2'⟩ := pr
            cases hre : o.renameErr with
            | none =>
              rw [hre] at h
              simp at h
            | some e3 =>
              rw [hre] at h
              simp at h
              obtain ⟨_, h2, _⟩ := h
              obtain ⟨j, _, hj, hd2⟩ :=
                link_loop_ok dir w.content w.tmpPre w.tmpSuffix o.rchars
                  o.linkOuts 0 t dir2' hle
              have hne : ¬ (w.destname = t) := by
                intro hcon
                apply hlen
                rw [hcon, hj, genName_length]
              rw [← h2]
              by_cases hrm : o.removeOk = true
              · rw [if_pos hrm, hd2, lookup_remove, lookup_set,
                  if_neg hne, if_neg hne]
              · rw [if_neg hrm, hd2, lookup_set, if_neg hne]
  · simp [complete_with, hf2, hh2, hl2, hr2]

def oEx1 : CommitOracle :=
  ⟨some ErrorKind.PermissionDenied, none, fun _ => 'a', [], none, false⟩

def oEx2 : CommitOracle :=
  ⟨none, none, fun _ => 'b', [none], some ErrorKind.OtherK, true⟩

def tEx2 : String := genName ".tmp." ".tmp" (fun _ => 'b') 0

theorem complete_with_failure_frame_witness :
    DirState.lookup (DirState.mk []) (FileWriter.new "dest").destname
        = DirState.lookup (DirState.mk []) (FileWriter.new "dest").destname
    ∧ complete_with (FileWriter.new "d2") (DirState.mk []) oEx2
        = some (Except.error ErrorKind.OtherK,
            (if oEx2.removeOk
              then DirState.remove (DirState.set (DirState.mk []) tEx2 []) tEx2
              else DirState.set (DirState.mk []) tEx2 []), false) :=
  complete_with_failure_frame (FileWriter.new "dest") (FileWriter.new "d2")
    (DirState.mk []) (DirState.mk []) (DirState.set (DirState.mk []) tEx2 [])
    (DirState.mk []) oEx1 oEx2 ErrorKind.PermissionDenied ErrorKind.OtherK false tEx2
    (by decide) (by rfl) (by rfl) (by rfl) (by rfl) (by rfl)

/-- C5: the visible temporary name is tmp_prefix, 8 random alphanumeric
characters, tmp_suffix, with per-writer-overridable defaults ".tmp." and
".tmp"; an AlreadyExists link outcome retries with a freshly generated
name, with no retry cap (any number n of collisions still succeeds, the
final name drawn from fresh samples); any other link error aborts with
that error. -/
theorem tmpname_protocol (dir d2 : DirState) (content : List Nat) (pre suf : String)
    (rchars : Nat → Char) (outs rest : List (Option ErrorKind)) (t dn : String)
    (e : ErrorKind) (n k : Nat)
    (ha : ∀ i, isAlnumChar (rchars i) = true)
    (hlink : link_loop dir content pre suf rchars 0 outs = some (Except.ok (t, d2)))
    (he : e ≠ ErrorKind.AlreadyExists) :
    (FileWriter.new dn).tmpPre = ".tmp."
    ∧ (FileWriter.new dn).tmpSuffix = ".tmp"
    ∧ t = pre ++ String.mk (List.ofFn (fun i : Fin 8 =>
        rchars (8 * collisionCount outs + i.val))) ++ suf
    ∧ (List.ofFn (fun i : Fin 8 =>
        rchars (8 * collisionCount outs + i.val))).all isAlnumChar = true
    ∧ d2 = DirState.set dir t content
    ∧ link_loop dir content pre suf rchars 0
        (List.replicate n (some ErrorKind.AlreadyExists) ++ [none])
        = some (Except.ok (genName pre suf rchars n,
            DirState.set dir (genName pre suf rchars n) content))
    ∧ link_loop dir content pre suf rchars k (some e :: rest)
        = some (Except.error e) := by
  obtain ⟨h1, h2⟩ := link_loop_ok_name dir content pre suf rchars outs 0 t d2 hlink
  refine ⟨rfl, rfl, ?_, ?_, h2, ?_, link_loop_error dir content pre suf rchars e rest k he⟩
  · rw [h1]
    simp [genName]
  · rw [List.all_eq_true]
    intro x hx
    rw [List.mem_ofFn] at hx
    obtain ⟨i, hi⟩ := hx
    rw [← hi]
    exact ha _
  · have hcoll := link_loop_collisions dir content pre suf rchars n 0
    simpa using hcoll

theorem tmpname_protocol_witness :
    (FileWriter.new "x").tmpPre = ".tmp."
    ∧ (FileWriter.new "x").tmpSuffix = ".tmp"
    ∧ genName ".tmp." ".tmp" (fun _ => 'a') 0
        = ".tmp." ++ String.mk (List.ofFn (fun i : Fin 8 =>
            (fun _ => 'a') (8 * collisionCount [none] + i.val))) ++ ".tmp"
    ∧ (List.ofFn (fun i : Fin 8 =>
        (fun _ => 'a') (8 * collisionCount [none] + i.val))).all isAlnumChar = true
    ∧ DirState.set (DirState.mk []) (genName ".tmp." ".tmp" (fun _ => 'a') 0) []
        = DirState.set (DirState.mk []) (genName ".tmp." ".tmp" (fun _ => 'a') 0) []
    ∧ link_loop (DirState.mk []) [] ".tmp." ".tmp" (fun _ => 'a') 0
        (List.replicate 2 (some ErrorKind.AlreadyExists) ++ [none])
        = some (Except.ok (genName ".tmp." ".tmp" (fun _ => 'a') 2,
            DirState.set (DirState.mk []) (genName ".tmp." ".tmp" (fun _ => 'a') 2) []))
    ∧ link_loop (DirState.mk []) [] ".tmp." ".tmp" (fun _ => 'a') 0
        [some ErrorKind.NotFound] = some (Except.error ErrorKind.NotFound) :=
  tmpname_protocol (DirState.mk [])
    (DirState.set (DirState.mk []) (genName ".tmp." ".tmp" (fun _ => 'a') 0) [])
    [] ".tmp." ".tmp" (fun _ => 'a') [none] [] (genName ".tmp." ".tmp" (fun _ => 'a') 0)
    "x" ErrorKind.NotFound 2 0 (fun i => rfl) (by rfl) (by decide)

/-- C6: a writer that is abandoned after any sequence of writes performs
no directory operation: the threaded directory is returned unchanged (so
the destination name holds exactly what it held before the writer was
created, and no visible temporary name was created), and abandon itself
only disarms the guard, leaving every other field of the writer alone. -/
theorem abandon_frame (dir : DirState) (destname : String) (chunks : List (List Nat))
    (w : FileWriter) :
    (abandon_session dir destname chunks).1 = dir
    ∧ DirState.lookup (abandon_session dir destname chunks).1 destname
        = DirState.lookup dir destname
    ∧ ((abandon_session dir destname chunks).2).bomb = false
    ∧ (FileWriter.abandon w).bomb = false
    ∧ (FileWriter.abandon w).content = w.content
    ∧ (FileWriter.abandon w).tmpPre = w.tmpPre
    ∧ (FileWriter.abandon w).tmpSuffix = w.tmpSuffix
    ∧ (FileWriter.abandon w).destname = w.destname :=
  ⟨rfl, rfl, rfl, rfl, rfl, rfl, rfl, rfl⟩

/-- C9: a new FileWriter's bomb is armed; dropping a still-armed writer
panics with the unambiguous drop_bomb message, except when the thread is
already panicking, where the check is skipped; complete_with (hence
complete) and abandon both defuse the bomb, after which dropping is
silent. -/
theorem drop_guard (dn : String) (w wc : FileWriter) (tp b2 : Bool) (dir d2 : DirState)
    (o : CommitOracle) (r : Except ErrorKind Unit)
    (harmed : w.bomb = true)
    (hc : complete_with wc dir o = some (r, d2, b2)) :
    (FileWriter.new dn).bomb = true
    ∧ FileWriter.dropCheck w false = DropBehavior.panicked bombMsg
    ∧ FileWriter.dropCheck w true = DropBehavior.silent
    ∧ FileWriter.dropCheck (FileWriter.abandon w) tp = DropBehavior.silent
    ∧ b2 = false
    ∧ FileWriter.dropCheck { w with bomb := b2 } tp = DropBehavior.silent := by
  have hb2 : b2 = false := complete_with_defused wc dir o r d2 b2 hc
  refine ⟨rfl, ?_, ?_, ?_, hb2, ?_⟩
  · simp [FileWriter.dropCheck, harmed]
  · simp [FileWriter.dropCheck]
  · simp [FileWriter.dropCheck, FileWriter.abandon]
  · simp [FileWriter.dropCheck, hb2]

theorem drop_guard_witness :
    (FileWriter.new "q").bomb = true
    ∧ FileWriter.dropCheck (FileWriter.new "z") false = DropBehavior.panicked bombMsg
    ∧ FileWriter.dropCheck (FileWriter.new "z") true = DropBehavior.silent
    ∧ FileWriter.dropCheck (FileWriter.abandon (FileWriter.new "z")) true
        = DropBehavior.silent
    ∧ false = false
    ∧ FileWriter.dropCheck { FileWriter.new "z" with bomb := false } true
        = DropBehavior.silent :=
  drop_guard "q" (FileWriter.new "z") (FileWriter.new "y") true false
    (DirState.mk []) (DirState.mk []) oEx1 (Except.error ErrorKind.PermissionDenied)
    (by rfl) (by rfl)

/-- C10: write_file_with and write_file_with_sync abandon the writer and
return the closure's error unchanged (directory untouched) when the
closure fails; when the closure returns Ok(v) they complete the writer
(the _sync variant with the sync_all hook) and return Ok(v), unless
completion fails, in which case the completion io error is returned
through the caller's error type. -/
theorem write_file_with_propagation {E T : Type} (dir dir2 dir3 dir4 dir5 : DirState)
    (dn : String) (bs : List Nat) (v : T) (e : E) (ioe ioe2 : ErrorKind)
    (liftErr : ErrorKind → E) (o o2 o3 o4 o5 : CommitOracle)
    (b2 b3 b4 b5 : Bool)
    (h2 : FileWriter.complete (FileWriter.write (FileWriter.new dn) bs) dir o2
        = some (Except.ok (), dir2, b2))
    (h3 : FileWriter.complete (FileWriter.write (FileWriter.new dn) bs) dir o3
        = some (Except.error ioe, dir3, b3))
    (h4 : complete_with (FileWriter.write (FileWriter.new dn) bs) dir o4
        = some (Except.ok (), dir4, b4))
    (h5 : complete_with (FileWriter.write (FileWriter.new dn) bs) dir o5
        = some (Except.error ioe2, dir5, b5)) :
    @write_file_with E T dir dn bs (Except.error e) liftErr o
        = some (Except.error e, dir, false)
    ∧ @write_file_with_sync E T dir dn bs (Except.error e) liftErr o
        = some (Except.error e, dir, false)
    ∧ write_file_with dir dn bs (Except.ok v) liftErr o2 = some (Except.ok v, dir2, b2)
    ∧ write_file_with dir dn bs (Except.ok v) liftErr o3
        = some (Except.error (liftErr ioe), dir3, b3)
    ∧ write_file_with_sync dir dn bs (Except.ok v) liftErr o4
        = some (Except.ok v, dir4, b4)
    ∧ write_file_with_sync dir dn bs (Except.ok v) liftErr o5
        = some (Except.error (liftErr ioe2), dir5, b5) := by
  refine ⟨rfl, rfl, ?_, ?_, ?_, ?_⟩
  · simp [write_file_with, new_file_writer, h2]
  · simp [write_file_with, new_file_writer, h3]
  · simp [write_file_with_sync, new_file_writer, h4]
  · simp [write_file_with_sync, new_file_writer, h5]

def oEx3 : CommitOracle := ⟨none, none, fun _ => 'c', [none], none, true⟩

def oEx4 : CommitOracle :=
  ⟨none, none, fun _ => 'c', [none], some ErrorKind.OtherK, true⟩

def tEx3 : String := genName ".tmp." ".tmp" (fun _ => 'c') 0

def dirOk : DirState :=
  DirState.rename (DirState.set (DirState.mk []) tEx3 [1, 2]) tEx3 "dn"

def dirErr : DirState := DirState.remove (DirState.set (DirState.mk []) tEx3 [1, 2]) tEx3

theorem write_file_with_propagation_witness :
    @write_file_with ErrorKind Nat (DirState.mk []) "dn" [1, 2]
        (Except.error ErrorKind.InvalidInput) id oEx3
        = some (Except.error ErrorKind.InvalidInput, DirState.mk [], false)
    ∧ @write_file_with_sync ErrorKind Nat (DirState.mk []) "dn" [1, 2]
        (Except.error ErrorKind.InvalidInput) id oEx3
        = some (Except.error ErrorKind.InvalidInput, DirState.mk [], false)
    ∧ write_file_with (DirState.mk []) "dn" [1, 2] (Except.ok 42) id oEx3
        = some (Except.ok 42, dirOk, false)
    ∧ write_file_with (DirState.mk []) "dn" [1, 2] (Except.ok 42) id oEx4
        = some (Except.error (id ErrorKind.OtherK), dirErr, false)
    ∧ write_file_with_sync (DirState.mk []) "dn" [1, 2] (Except.ok 42) id oEx3
        = some (Except.ok 42, dirOk, false)
    ∧ write_file_with_sync (DirState.mk []) "dn" [1, 2] (Except.ok 42) id oEx4
        = some (Except.error (id ErrorKind.OtherK), dirErr, false) :=
  write_file_with_propagation (DirState.mk []) dirOk dirErr dirOk dirErr "dn" [1, 2]
    42 ErrorKind.InvalidInput ErrorKind.OtherK ErrorKind.OtherK id
    oEx3 oEx3 oEx4 oEx3 oEx4 false false false false
    (by rfl) (by rfl) (by rfl) (by rfl)

end OpenatExt
